import Mathlib

/-!
Shallow embedding of the artifact-extraction core of
`src/frontend/src/components/LegalMultiAgentSystem.js`.

Strings are modelled as `List Char` (the inputs of interest are ASCII, and
JavaScript string indices then coincide with list positions).  The three
extraction passes of `extractArtifacts` use JavaScript regular expressions;
each regex is embedded as an explicit scanner whose behaviour matches the
backtracking semantics of the concrete pattern on the relevant alphabet:

* code pass    regex `/(three backticks)(\w+)?\n([\s\S]*?)(three backticks)/g`
* table pass   regex `/(\|.*\|[\s\S]*?\n(?:\|.*\|[\s\S]*?\n)*)/g`
* doc pass     regex `/((?:CONTRACT|AGREEMENT|MEMO|POLICY|PROCEDURE|DOCUMENT)[\s\S]\x7b200,\x7d)/i`

All three `exec` calls in the source scan the ORIGINAL `content`; only the
`replace` calls act on the working copy `remainingContent`.  The embedding
reproduces exactly that.
-/

set_option maxRecDepth 16000

abbrev Str := List Char

/-- Shorthand: the character list of a string literal. -/
def S (s : String) : Str := s.toList

/-- The backtick character (code point 96). -/
def btick : Char := Char.ofNat 96

/-- The apostrophe character (code point 39). -/
def apos : Char := Char.ofNat 39

/-- JavaScript whitespace (`\s`): ASCII whitespace, NBSP, the Unicode space
separators, the line separators and the BOM. -/
def isWsChar (c : Char) : Bool :=
  c = ' ' || c = '\t' || c = '\n' || c = '\r' ||
  c.toNat = 11 || c.toNat = 12 || c.toNat = 160 || c.toNat = 0x1680 ||
  (decide (0x2000 ≤ c.toNat) && decide (c.toNat ≤ 0x200a)) ||
  c.toNat = 0x2028 || c.toNat = 0x2029 ||
  c.toNat = 0x202f || c.toNat = 0x205f || c.toNat = 0x3000 || c.toNat = 0xfeff

/-- JavaScript line terminators (what `.` refuses to match, and where the
multiline anchors `^` and `$` fire). -/
def isLineTermChar (c : Char) : Bool :=
  c = '\n' || c = '\r' || c.toNat = 0x2028 || c.toNat = 0x2029

/-- JavaScript `\w`: ASCII letters, digits and underscore. -/
def isWordChar (c : Char) : Bool := c.isAlpha || c.isDigit || c = '_'

/-- Drop leading JavaScript whitespace. -/
def dropWhileWs : Str → Str
  | [] => []
  | c :: cs => if isWsChar c then dropWhileWs cs else c :: cs

/-- JavaScript `String.prototype.trim`. -/
def jsTrim (s : Str) : Str := ((dropWhileWs (dropWhileWs s).reverse)).reverse

/-- JavaScript `String.prototype.split` with a single-character separator. -/
def splitOnChar (sep : Char) : Str → List Str
  | [] => [[]]
  | c :: cs =>
    if c = sep then [] :: splitOnChar sep cs
    else
      match splitOnChar sep cs with
      | [] => [[c]]
      | t :: ts => (c :: t) :: ts

/-- Index of the first occurrence of `pat` as a contiguous sublist of `s`. -/
def firstIdxOf (pat : Str) : Str → Option Nat
  | [] => if pat.isPrefixOf ([] : Str) then some 0 else none
  | c :: cs =>
    if pat.isPrefixOf (c :: cs) then some 0
    else (firstIdxOf pat cs).map (· + 1)

/-- JavaScript `String.prototype.replace` with a plain-string pattern:
replace the first occurrence of `pat` (a no-op when `pat` does not occur). -/
def replaceFirst (s pat repl : Str) : Str :=
  match firstIdxOf pat s with
  | none => s
  | some i => s.take i ++ repl ++ s.drop (i + pat.length)

/-- Leftmost match of a start-anchored matcher `f`: try `f` on each suffix of
`s` left to right; return the start index and the payload of the first hit. -/
def execFrom (f : Str → Option α) : Str → Option (Nat × α)
  | [] => (f []).map (fun a => (0, a))
  | c :: cs =>
    match f (c :: cs) with
    | some a => some (0, a)
    | none => (execFrom f cs).map (fun p => (p.1 + 1, p.2))

/-- One step of the JavaScript `while ((match = re.exec(content)) !== null)`
idiom for a global regex: after each match, the search resumes at the end of
that match.  `alen` gives the matched length.  All regexes embedded here match
at least one character; the `max _ 1` guard only makes the recursion total. -/
def jsExecAllGo (f : Str → Option α) (alen : α → Nat) : Nat → Str → Nat → List (Nat × α)
  | 0, _, _ => []
  | fuel + 1, t, pos =>
    match execFrom f t with
    | none => []
    | some (i, a) =>
      let step := i + max (alen a) 1
      (pos + i, a) :: jsExecAllGo f alen fuel (t.drop step) (pos + step)

/-- All matches of a global regex over `s`, with their start positions,
in the order the `exec` loop of the source visits them. -/
def jsExecAll (f : Str → Option α) (alen : α → Nat) (s : Str) : List (Nat × α) :=
  jsExecAllGo f alen (s.length + 1) s 0

/-! ### The code-block regex -/

/-- Maximal run of `\w` characters at the head, and the rest. -/
def takeWordRun : Str → Str × Str
  | [] => ([], [])
  | c :: cs =>
    if isWordChar c then
      let p := takeWordRun cs
      (c :: p.1, p.2)
    else ([], c :: cs)

/-- A triple-backtick fence. -/
def ticks : Str := [btick, btick, btick]

/-- The code-block regex matched at the start of `t`: a fence, an optional
language tag of word characters followed immediately by a newline, then the
lazily-matched body up to the nearest closing fence.  Returns
`(match0, language group, body group)`. -/
def matchCodeSuffix (t : Str) : Option (Str × Option Str × Str) :=
  if ticks.isPrefixOf t then
    match takeWordRun (t.drop 3) with
    | (w, rest) =>
      match rest with
      | '\n' :: r2 =>
        match firstIdxOf ticks r2 with
        | some m =>
          some (ticks ++ w ++ '\n' :: (r2.take m ++ ticks),
                if w.isEmpty then none else some w,
                r2.take m)
        | none => none
      | _ => none
  else none

/-- All code-block matches of the original content, in `exec` order:
`(position, match0, language, body)`. -/
def codeMatchList (s : Str) : List (Nat × Str × Option Str × Str) :=
  jsExecAll matchCodeSuffix (fun m => m.1.length) s

/-! ### The table regex -/

/-- Split off the text before the first `'\n'` and the text after it. -/
def lineSplit : Str → Option (Str × Str)
  | [] => none
  | c :: cs =>
    if c = '\n' then some ([], cs)
    else (lineSplit cs).map (fun p => (c :: p.1, p.2))

/-- One `\|.*\|[\s\S]*?\n` unit at the start of `t`: a pipe, a second pipe
later on the same line (with no line terminator between, since `.` skips
those), and everything up to and including the `'\n'` of that line.
Returns the unit length and the rest of the string. -/
def matchTableUnit (t : Str) : Option (Nat × Str) :=
  match t with
  | [] => none
  | c :: t1 =>
    if c = '|' then
      match lineSplit t1 with
      | some (line, rest) =>
        if (line.takeWhile (fun d => !(isLineTermChar d))).contains '|' then
          some (line.length + 2, rest)
        else none
      | none => none
    else none

/-- Greedy star over table units: total length of the maximal unit run. -/
def tableUnitsGo : Nat → Str → Nat
  | 0, _ => 0
  | fuel + 1, t =>
    match matchTableUnit t with
    | none => 0
    | some (len, rest) => len + tableUnitsGo fuel rest

/-- The table regex matched at the start of `t`: at least one unit, then as
many further units as possible.  Returns `match0` (= group 1). -/
def matchTableSuffix (t : Str) : Option Str :=
  match matchTableUnit t with
  | none => none
  | some _ => some (t.take (tableUnitsGo t.length t))

/-- All table matches of the original content, in `exec` order. -/
def tableMatchList (s : Str) : List (Nat × Str) :=
  jsExecAll matchTableSuffix List.length s

/-! ### The document regex -/

/-- The six alternatives of the document regex, in source order. -/
def docKeywords : List Str :=
  [S "CONTRACT", S "AGREEMENT", S "MEMO", S "POLICY", S "PROCEDURE", S "DOCUMENT"]

/-- The five keywords named by the specification (the source also has
`DOCUMENT`). -/
def docKeywordsSpec5 : List Str :=
  [S "CONTRACT", S "AGREEMENT", S "MEMO", S "POLICY", S "PROCEDURE"]

/-- ASCII lower-casing of a string (the keywords and their case-insensitive
matches are ASCII, where this agrees with the regex `i`-flag folding). -/
def lowerStr (s : Str) : Str := s.map Char.toLower

/-- Case-insensitive "kw occurs at the start of t". -/
def ciStarts (kw t : Str) : Bool := (lowerStr kw).isPrefixOf (lowerStr t)

/-- The document regex matched at the start of `t`: one of the keywords,
case-insensitively, followed by at least 200 further characters; the greedy
`[\s\S]\x7b200,\x7d` then extends the match to the end of the string, so
`match0` (= group 1) is the whole suffix `t`. -/
def matchDocSuffix (t : Str) : Option Str :=
  match docKeywords.find? (fun kw => ciStarts kw t) with
  | some kw => if kw.length + 200 ≤ t.length then some t else none
  | none => none

/-- The single (non-global) `exec` of the document regex. -/
def docExec (s : Str) : Option (Nat × Str) := execFrom matchDocSuffix s

/-! ### Post-processing of the working text -/

/-- Drop leading `'\n'` characters. -/
def dropNLs : Str → Str
  | [] => []
  | c :: cs => if c = '\n' then dropNLs cs else c :: cs

/-- Fuelled body of `replace(/\n\x7b3,\x7d/g, two newlines)`: any run of two
or more newlines is a run the regex either leaves (length 2) or rewrites to
length 2, so every maximal newline run of length at least 2 becomes exactly 2. -/
def collapseNLGo : Nat → Str → Str
  | 0, _ => []
  | _ + 1, [] => []
  | fuel + 1, c :: cs =>
    if c = '\n' then
      match cs with
      | c2 :: cs2 =>
        if c2 = '\n' then '\n' :: '\n' :: collapseNLGo fuel (dropNLs cs2)
        else '\n' :: collapseNLGo fuel cs
      | [] => ['\n']
    else c :: collapseNLGo fuel cs

/-- `remainingContent.replace(/\n\x7b3,\x7d/g, two newlines)`. -/
def collapseNL (s : Str) : Str := collapseNLGo s.length s

/-- Maximal run of JavaScript whitespace at the head, and the rest. -/
def takeWsRun : Str → Str × Str
  | [] => ([], [])
  | c :: cs =>
    if isWsChar c then
      let p := takeWsRun cs
      (c :: p.1, p.2)
    else ([], c :: cs)

/-- Index of the last line terminator in `w`, if any. -/
def lastTermIdx : Str → Option Nat
  | [] => none
  | c :: cs =>
    match lastTermIdx cs with
    | some i => some (i + 1)
    | none => if isLineTermChar c then some 0 else none

/-- The trailing `\s*$` of the placeholder-line regex, matched greedily at
`u`: consume the whole whitespace run when it reaches the end of the string,
otherwise consume up to (not including) the last line terminator of the run;
fail when there is neither.  Returns the number of characters consumed. -/
def placeTrail (u : Str) : Option Nat :=
  let p := takeWsRun u
  match p.2 with
  | [] => some p.1.length
  | _ :: _ => lastTermIdx p.1

/-- The `.*?\]\s*$` part after the opening bracket: the lazy `.*?` cannot
cross a line terminator, and extends past a candidate `']'` only when the
trailing `\s*$` fails there.  Returns the number of characters consumed. -/
def placeBody : Str → Option Nat
  | [] => none
  | c :: cs =>
    if isLineTermChar c then none
    else if c = ']' then
      match placeTrail cs with
      | some k => some (k + 1)
      | none =>
        match placeBody cs with
        | some k => some (k + 1)
        | none => none
    else (placeBody cs).map (· + 1)

/-- The placeholder-line regex `/^\s*\[.*?\]\s*$/m` matched at a `^` position:
greedy `\s*` (which may cross line breaks), then `'['`, then the body.
Returns the total match length. -/
def matchPlaceholderAt (t : Str) : Option Nat :=
  let p := takeWsRun t
  match p.2 with
  | '[' :: r2 => (placeBody r2).map (fun k => p.1.length + 1 + k)
  | _ => none

/-- Fuelled scan of `replace(/^\s*\[.*?\]\s*$/gm, empty)`: walk the original
string keeping track of whether the current position is a `^` position; at a
`^` position try the placeholder match and, on success, drop the matched span
and resume right after it (the `^` status there is decided by the last
consumed character of the original string, exactly as `lastIndex` search
does). -/
def rpGo : Nat → Bool → Str → Str
  | 0, _, _ => []
  | _ + 1, _, [] => []
  | fuel + 1, caret, c :: cs =>
    if caret then
      match matchPlaceholderAt (c :: cs) with
      | some k =>
        rpGo fuel (isLineTermChar ((c :: cs).getD (k - 1) ' ')) ((c :: cs).drop k)
      | none => c :: rpGo fuel (isLineTermChar c) cs
    else c :: rpGo fuel (isLineTermChar c) cs

/-- `remainingContent.replace(/^\s*\[.*?\]\s*$/gm, empty)`. -/
def removePlaceholders (s : Str) : Str := rpGo (s.length + 1) true s

/-- The post-processing chain of `extractArtifacts`: collapse newline runs,
delete placeholder lines, trim. -/
def cleanupContent (s : Str) : Str := jsTrim (removePlaceholders (collapseNL s))

/-! ### Artifacts and the extraction pipeline -/

inductive ArtifactType where
  | code
  | table
  | document
  deriving DecidableEq, Repr

/-- The artifact objects pushed by `extractArtifacts`.  `language` is `none`
for table and document artifacts (the source leaves the field undefined). -/
structure Artifact where
  type : ArtifactType
  language : Option Str := none
  content : Str
  title : Str
  deriving DecidableEq, Repr

structure ExtractionResult where
  artifacts : List Artifact
  conversationalContent : Str
  deriving DecidableEq, Repr

/-- The artifact pushed for one code match `(pos, match0, language, body)`. -/
def mkCodeArtifact (m : Nat × Str × Option Str × Str) : Artifact :=
  { type := ArtifactType.code
    language := some ((m.2.2.1).getD (S "text"))
    content := jsTrim m.2.2.2
    title := (m.2.2.1).getD (S "Code") ++ S " Block" }

/-- The code-pass loop: push an artifact for every match and delete the first
occurrence of `match0` from the working copy. -/
def codePassGo : List (Nat × Str × Option Str × Str) → List Artifact × Str → List Artifact × Str
  | [], st => st
  | m :: ms, st => codePassGo ms (st.1 ++ [mkCodeArtifact m], replaceFirst st.2 m.2.1 [])

def codePass (content : Str) : List Artifact × Str :=
  codePassGo (codeMatchList content) ([], content)

/-- `rows.length >= 2` test of the table-pass loop body. -/
def tableQualifies (whole : Str) : Bool :=
  decide (2 ≤ ((splitOnChar '\n' (jsTrim whole)).filter (fun row => !(jsTrim row).isEmpty)).length)

def mkTableArtifact (whole : Str) : Artifact :=
  { type := ArtifactType.table, content := jsTrim whole, title := S "Data Table" }

def tableMarker : Str := S "[Table shown in artifact]"

/-- The table-pass loop: every match advances the scan, but only matches with
at least two rows push an artifact and substitute the marker. -/
def tablePassGo : List (Nat × Str) → List Artifact × Str → List Artifact × Str
  | [], st => st
  | m :: ms, st =>
    tablePassGo ms
      (if tableQualifies m.2 then
        (st.1 ++ [mkTableArtifact m.2], replaceFirst st.2 m.2 tableMarker)
      else st)

def tablePass (content : Str) (st : List Artifact × Str) : List Artifact × Str :=
  tablePassGo (tableMatchList content) st

def docMarker : Str := S "[Document shown in artifact]"

def mkDocArtifact (whole : Str) : Artifact :=
  { type := ArtifactType.document, content := whole, title := S "Legal Document" }

/-- The document pass: at most one artifact, from the single `exec`. -/
def docPass (content : Str) (st : List Artifact × Str) : List Artifact × Str :=
  match docExec content with
  | some m => (st.1 ++ [mkDocArtifact m.2], replaceFirst st.2 m.2 docMarker)
  | none => st

/-- Fallback sentence for a result that contains a table artifact. -/
def cannedTable : Str := 'I' :: apos :: S "ve created a table with the requested information."

/-- Fallback sentence for a result that contains a code artifact. -/
def cannedCode : Str := 'I' :: apos :: S "ve created the code for you."

/-- Fallback sentence for a result that contains a document artifact. -/
def cannedDocument : Str := 'I' :: apos :: S "ve prepared the document as requested."

/-- The `extractArtifacts` helper of the source: three passes whose `exec`
calls all scan the original `content`, removal/markers applied to the working
copy, post-processing, and fallback synthesis of the conversational text. -/
def extractArtifacts (content : Str) : ExtractionResult :=
  let st1 := codePass content
  let st2 := tablePass content st1
  let st3 := docPass content st2
  let cleaned := cleanupContent st3.2
  let finalContent :=
    if cleaned.isEmpty && !st3.1.isEmpty then
      if st3.1.any (fun a => decide (a.type = ArtifactType.table)) then cannedTable
      else if st3.1.any (fun a => decide (a.type = ArtifactType.code)) then cannedCode
      else if st3.1.any (fun a => decide (a.type = ArtifactType.document)) then cannedDocument
      else cleaned
    else cleaned
  { artifacts := st3.1, conversationalContent := finalContent }

/-! ### The table formatter `parseMarkdownTable` -/

/-- The HTML shell the formatter assembles around header cells and body rows
(shared verbatim by all three pass variants below). -/
def renderTableHtml (headers : List Str) (data : List (List Str)) : Str :=
  S "<div class=\"artifact-table-container\"><table class=\"artifact-table\">" ++
  S "<thead><tr>" ++
  (headers.map (fun h => S "<th>" ++ h ++ S "</th>")).flatten ++
  S "</tr></thead>" ++
  S "<tbody>" ++
  (data.map (fun row =>
    S "<tr>" ++ (row.map (fun cell => S "<td>" ++ cell ++ S "</td>")).flatten ++ S "</tr>")).flatten ++
  S "</tbody></table></div>"

/-- The `parseMarkdownTable` helper of the source: trim, split into lines,
drop blank lines; fewer than 2 rows, a header without a pipe or a second row
without a dash return the content unchanged; otherwise the first row is the
header, the second row is treated as the separator and discarded, rows from
the third on are data rows; every row splits on the pipe, trims each cell and
drops every cell that is empty after trimming (interior ones included). -/
def parseMarkdownTable (content : Str) : Str :=
  let rows := (splitOnChar '\n' (jsTrim content)).filter (fun row => !(jsTrim row).isEmpty)
  if rows.length < 2 then content
  else
    let headerRow := rows.getD 0 []
    let separatorRow := rows.getD 1 []
    let dataRows := rows.drop 2
    if !(headerRow.contains '|') || !(separatorRow.contains '-') then content
    else
      let headers := ((splitOnChar '|' headerRow).map jsTrim).filter (fun h => !h.isEmpty)
      let data := dataRows.map (fun row =>
        ((splitOnChar '|' row).map jsTrim).filter (fun cell => !cell.isEmpty))
      renderTableHtml headers data

/-- Drop empty cells only at the two edges of a row. -/
def dropEdgeEmpty (cells : List Str) : List Str :=
  ((cells.dropWhile List.isEmpty).reverse.dropWhile List.isEmpty).reverse

/-- The formatter as claim C3 words it, for refinement comparison: split the
content into lines, first line = header row, EVERY remaining line = body row;
each row splits on the pipe, trims each cell, and drops only the cells that
are empty after trimming at the leading/trailing edges of the row, retaining
interior empty cells. -/
def parseMarkdownTableSpec (content : Str) : Str :=
  match splitOnChar '\n' content with
  | [] => content
  | headerRow :: bodyRows =>
    renderTableHtml
      (dropEdgeEmpty ((splitOnChar '|' headerRow).map jsTrim))
      (bodyRows.map (fun row => dropEdgeEmpty ((splitOnChar '|' row).map jsTrim)))

/-- Cells of one row as the source computes them: split on the pipe, trim,
drop every cell that is empty after trimming. -/
def rowCells (row : Str) : List Str :=
  ((splitOnChar '|' row).map jsTrim).filter (fun cell => !cell.isEmpty)

/-- The formatter as the amended claim C3 words it: among the trimmed,
non-blank lines of the content, the first is the header, the second is a
separator that is discarded, and the lines from the third on are the body
rows; a table needs at least two such lines, a pipe in the header and a dash
in the separator, otherwise the content is returned unchanged; all cells that
are empty after trimming are dropped, interior ones included. -/
def parseMarkdownTableAmended (content : Str) : Str :=
  match (splitOnChar '\n' (jsTrim content)).filter (fun row => !(jsTrim row).isEmpty) with
  | headerRow :: separatorRow :: dataRows =>
    if headerRow.contains '|' && separatorRow.contains '-' then
      renderTableHtml (rowCells headerRow) (dataRows.map rowCells)
    else content
  | _ => content

/-! ### The message reconciler -/

/-- The message objects owned by the reconciler.  Fields the source leaves
undefined are modelled by the `none` / `false` / `[]` defaults. -/
structure Message where
  id : Nat
  content : Str
  conversationalContent : Option Str := none
  artifacts : List Artifact := []
  isBot : Bool := false
  agent : Str := []
  timestamp : Str := []
  isStreaming : Bool := false
  hasArtifact : Bool := false
  isError : Bool := false
  thinking : Option Str := none
  deriving DecidableEq, Repr

/-- The new-streaming-message branch of the `data.content` handler.
`now` stands for `Date.now()` and `nowIso` for `new Date().toISOString()`. -/
def appendNewStreamingMessage (prev : List Message) (fragment : Str)
    (dataThinking : Option Str) (dataAgent : Option Str) (dataTimestamp : Option Str)
    (now : Nat) (nowIso : Str) : List Message :=
  let r := extractArtifacts fragment
  prev ++ [{ id := now
             content := fragment
             conversationalContent := some r.conversationalContent
             artifacts := r.artifacts
             isBot := true
             agent := dataAgent.getD (S "Legal Assistant")
             timestamp := dataTimestamp.getD nowIso
             isStreaming := true
             hasArtifact := decide (0 < r.artifacts.length)
             thinking := dataThinking }]

/-- The `data.content` branch of `ws.onmessage`: when the last message is a
streaming bot message, append the fragment to its content and re-derive the
extraction over the whole accumulated text; otherwise open a new streaming
message. -/
def handleContentEvent (prev : List Message) (fragment : Str)
    (dataThinking : Option Str) (dataAgent : Option Str) (dataTimestamp : Option Str)
    (now : Nat) (nowIso : Str) : List Message :=
  match prev.getLast? with
  | some lastMessage =>
    if lastMessage.isBot && lastMessage.isStreaming then
      let updatedContent := lastMessage.content ++ fragment
      let r := extractArtifacts updatedContent
      prev.dropLast ++ [{ lastMessage with
        content := updatedContent
        conversationalContent := some r.conversationalContent
        artifacts := r.artifacts
        hasArtifact := decide (0 < r.artifacts.length)
        thinking := match dataThinking with
                    | some t => some t
                    | none => lastMessage.thinking }]
    else appendNewStreamingMessage prev fragment dataThinking dataAgent dataTimestamp now nowIso
  | none => appendNewStreamingMessage prev fragment dataThinking dataAgent dataTimestamp now nowIso

/-- The `data.error` branch of `ws.onmessage`: append one new message flagged
as a bot error, with content `"Error: " ++ error`, leaving `prev` untouched. -/
def handleErrorEvent (prev : List Message) (err : Str) (now : Nat) (nowIso : Str) :
    List Message :=
  prev ++ [{ id := now
             content := S "Error: " ++ err
             isBot := true
             agent := S "System"
             timestamp := nowIso
             isError := true }]

/-! ### Derived predicates used by the claims -/

def hasTableArtifact (s : Str) : Bool :=
  (extractArtifacts s).artifacts.any (fun a => decide (a.type = ArtifactType.table))

def hasDocumentArtifact (s : Str) : Bool :=
  (extractArtifacts s).artifacts.any (fun a => decide (a.type = ArtifactType.document))

/-- Does `p` hold of some suffix of `s`? -/
def anySuffix (p : Str → Bool) : Str → Bool
  | [] => p []
  | c :: cs => p (c :: cs) || anySuffix p cs

/-- Boolean document trigger over a given keyword set: some case-insensitive
keyword occurrence followed by at least 200 further characters. -/
def docTriggerBoolOn (kws : List Str) (s : Str) : Bool :=
  anySuffix (fun t => kws.any (fun kw => ciStarts kw t && decide (kw.length + 200 ≤ t.length))) s

/-- A document trigger at position `m` of `s`: some keyword of the set in the source occurs there case-insensitively with at least 200 characters after it. -/
def DocTriggerAt (s : Str) (m : Nat) : Prop :=
  ∃ kw, kw ∈ docKeywords ∧ ciStarts kw (s.drop m) = true ∧ m + kw.length + 200 ≤ s.length

/-- A document trigger somewhere in `s`. -/
def DocTrigger (s : Str) : Prop := ∃ m, DocTriggerAt s m

/-! ### Concrete inputs for the claims -/

def c1Input : Str := ticks ++ '\n' :: S "|a|b|\n|c|d|\n" ++ ticks

def c2Frag1 : Str := S "Here is a t"

def c2Frag2 : Str := S "able:\n\n"

def c2Frag3 : Str := S "|A|B|\n|-|-|\n|1|2|\n"

/-- The streaming-merge scenario of claim C2: the three fragments fed in
order to the reconciler, starting from an empty message list. -/
def c2Msgs : List Message :=
  handleContentEvent
    (handleContentEvent
      (handleContentEvent [] c2Frag1 none none none 0 [])
      c2Frag2 none none none 1 [])
    c2Frag3 none none none 2 []

def c3Input : Str := S "|a||b|\n|-|-|\n|1||2|"

def c4Input : Str := S "DOCUMENT" ++ List.replicate 200 'a'

def c6Input : Str := ticks ++ S "js\nconst x=1;\n" ++ ticks

def c7Input : Str := S "a\n[x] \n[y]\n\nb"

def c9Input : Str := S "x|\ny|\n"

def c9Table : Str := S "|a|\n|b|\n"

/-! ## Claim theorems (concrete parts) -/

/-- C1, counterexample.  The claim says a span already extracted by the code
pass is never re-matched by a later pass.  On the input `c1Input` — a fenced
code block whose body is a two-line pipe table — the code pass matches the
span `[0, 19)`, yet the table pass still matches the span `[4, 16)`, which
lies strictly inside it (`0 ≤ 4` and `16 ≤ 19`), and a table artifact is
produced for it. -/
theorem c1_counterexample :
    (codeMatchList c1Input).map (fun m => (m.1, m.1 + m.2.1.length)) = [(0, 19)] ∧
    (tableMatchList c1Input).map (fun m => (m.1, m.1 + m.2.length)) = [(4, 16)] ∧
    hasTableArtifact c1Input = true := by decide

/-- C1, amended.  All three passes match against the ORIGINAL text, so a span
extracted by the code pass can be re-matched by a later pass; the removals
affect only the conversational remainder.  On `c1Input` the extractor returns
BOTH the code artifact for the whole fence and a table artifact for the pipe
table inside it, and the remainder falls back to the canned table sentence. -/
theorem c1_amended :
    extractArtifacts c1Input =
      { artifacts :=
          [{ type := ArtifactType.code, language := some (S "text"),
             content := S "|a|b|\n|c|d|", title := S "Code Block" },
           { type := ArtifactType.table, content := S "|a|b|\n|c|d|",
             title := S "Data Table" }],
        conversationalContent := cannedTable } := by decide

/-- C2, counterexample.  After the three fragments of the streaming scenario,
the conversational content of the in-flight message is the surviving lead-in text
`"Here is a table:"`, not the canned table sentence the claim requires. -/
theorem c2_counterexample :
    c2Msgs.map (fun m => m.conversationalContent) = [some (S "Here is a table:")] ∧
    S "Here is a table:" ≠ cannedTable := by decide

/-- C2, amended.  Feeding the three fragments in order to the same in-flight
streaming bot message yields, after the third fragment, exactly one message
holding exactly one table artifact whose content has a header line and two
further rows, with conversational content `"Here is a table:"` (the lead-in
text survives the cleanup, so the canned fallback sentence is not used). -/
theorem c2_amended :
    c2Msgs =
      [{ id := 0
         content := c2Frag1 ++ c2Frag2 ++ c2Frag3
         conversationalContent := some (S "Here is a table:")
         artifacts := [{ type := ArtifactType.table, content := S "|A|B|\n|-|-|\n|1|2|",
                         title := S "Data Table" }]
         isBot := true
         agent := S "Legal Assistant"
         timestamp := []
         isStreaming := true
         hasArtifact := true }] ∧
    (splitOnChar '\n' (S "|A|B|\n|-|-|\n|1|2|")).length = 3 := by decide

/-- C3, counterexample.  On a table whose rows contain interior empty cells,
the formatter described by the claim (first line = header, EVERY remaining
line = body row, only edge-empty cells dropped) disagrees with the source
formatter, which discards the second line as a separator and drops ALL empty
cells. -/
theorem c3_counterexample :
    parseMarkdownTable c3Input ≠ parseMarkdownTableSpec c3Input := by decide

/-- C4, counterexample.  The claim allows only the five keywords CONTRACT,
AGREEMENT, MEMO, POLICY, PROCEDURE to trigger a document artifact.  On
`c4Input = "DOCUMENT" ++ 200 characters` no five-keyword trigger exists (and
the input has no code or table match, so the working text equals the original
text), yet the extractor produces a document artifact: the source regex has
the sixth alternative `DOCUMENT`. -/
theorem c4_counterexample :
    hasDocumentArtifact c4Input = true ∧
    docTriggerBoolOn docKeywordsSpec5 c4Input = false := by decide

/-- C5, counterexample.  The claim says the content of the appended error message
equals the error text; the source prepends `"Error: "`, so for the error text
`"boom"` the content is `"Error: boom"`, which differs from `"boom"`. -/
theorem c5_counterexample :
    (handleErrorEvent [] (S "boom") 0 []).map Message.content = [S "Error: boom"] ∧
    S "Error: boom" ≠ S "boom" := by decide

/-- C5, amended.  On every error signal the reconciler appends exactly one
new message with `isError = true`, `isBot = true` and content equal to
`"Error: "` followed by the error text, never fails (the handler is a total
function), and leaves every existing message — including an in-flight
streaming message, which is inside `prev` — unchanged. -/
theorem c5_amended (prev : List Message) (err : Str) (now : Nat) (nowIso : Str) :
    handleErrorEvent prev err now nowIso =
      prev ++ [{ id := now, content := S "Error: " ++ err, isBot := true,
                 agent := S "System", timestamp := nowIso, isError := true }] ∧
    (handleErrorEvent prev err now nowIso).take prev.length = prev ∧
    (handleErrorEvent prev err now nowIso).length = prev.length + 1 := by
  refine ⟨rfl, ?_, by simp [handleErrorEvent]⟩
  simp [handleErrorEvent]

/-- C6, confirmed.  Extracting a fenced `js` code block returns exactly one
code artifact with language `"js"`, trimmed content `"const x=1;"`, and the
canned code sentence as the conversational remainder. -/
theorem c6_confirmed :
    extractArtifacts c6Input =
      { artifacts := [{ type := ArtifactType.code, language := some (S "js"),
                        content := S "const x=1;", title := S "js Block" }],
        conversationalContent := cannedCode } := by decide

/-- C7, counterexample.  The claim says that when the extraction of the
remainder yields no artifacts, the remainder is a fixed point.  On `c7Input`
the first extraction produces the trigger-free remainder `"a\n\n\nb"` (the
placeholder-line removal runs AFTER the newline collapse and can create a
fresh 3-newline run), and re-extracting yields no artifacts but the shorter
remainder `"a\n\nb"`. -/
theorem c7_counterexample :
    (extractArtifacts c7Input).conversationalContent = S "a\n\n\nb" ∧
    (extractArtifacts (S "a\n\n\nb")).artifacts = [] ∧
    (extractArtifacts (S "a\n\n\nb")).conversationalContent = S "a\n\nb" ∧
    S "a\n\nb" ≠ S "a\n\n\nb" := by decide

/-- C9, counterexample.  The claim says every run of two or more consecutive
lines each containing at least one pipe is extracted as a table.  On
`c9Input = "x|\ny|\n"` the first two lines each contain a pipe, but the
regex needs each matched line to contain a pipe FOLLOWED by another pipe, so
no artifact at all is extracted. -/
theorem c9_counterexample :
    ((splitOnChar '\n' c9Input).take 2).all (fun line => line.contains '|') = true ∧
    (extractArtifacts c9Input).artifacts = [] := by decide

/-- C10, confirmed.  The extractor is a total Lean function (modelling the
no-exception guarantee), and on the empty string it returns no artifacts and
the empty conversational remainder. -/
theorem c10_confirmed : extractArtifacts [] = { artifacts := [], conversationalContent := [] } := by
  decide

/-! ## General lemmas about the embedded scanners -/

theorem execFrom_eq_none_iff (f : Str → Option α) :
    ∀ s : Str, execFrom f s = none ↔ ∀ n, f (s.drop n) = none
  | [] => by
    constructor
    · intro h n
      simp only [execFrom, Option.map_eq_none'] at h
      simpa using h
    · intro h
      have h0 := h 0
      simp only [List.drop_nil] at h0
      simp [execFrom, h0]
  | c :: cs => by
    cases hf : f (c :: cs) with
    | some a =>
      constructor
      · intro h
        simp [execFrom, hf] at h
      · intro h
        have := h 0
        simp [hf] at this
    | none =>
      have ih := execFrom_eq_none_iff f cs
      constructor
      · intro h n
        simp only [execFrom, hf, Option.map_eq_none'] at h
        cases n with
        | zero => simpa using hf
        | succ n => simpa using ih.mp h n
      · intro h
        simp only [execFrom, hf, Option.map_eq_none']
        exact ih.mpr (fun n => by simpa using h (n + 1))

theorem execFrom_eq_some (f : Str → Option α) :
    ∀ (s : Str) (n : Nat) (a : α), execFrom f s = some (n, a) →
      f (s.drop n) = some a ∧ ∀ m, m < n → f (s.drop m) = none
  | [], n, a => by
    cases hf : f [] with
    | none => simp [execFrom, hf]
    | some b =>
      intro h
      simp only [execFrom, hf, Option.map_some', Option.some.injEq, Prod.mk.injEq] at h
      obtain ⟨h1, h2⟩ := h
      subst h1; subst h2
      exact ⟨by simpa using hf, fun m hm => absurd hm (Nat.not_lt_zero m)⟩
  | c :: cs, n, a => by
    cases hf : f (c :: cs) with
    | some b =>
      intro h
      simp only [execFrom, hf, Option.some.injEq, Prod.mk.injEq] at h
      obtain ⟨h1, h2⟩ := h
      subst h1; subst h2
      exact ⟨hf, fun m hm => absurd hm (Nat.not_lt_zero m)⟩
    | none =>
      intro h
      simp only [execFrom, hf] at h
      cases he : execFrom f cs with
      | none => rw [he] at h; simp at h
      | some p =>
        obtain ⟨n', a'⟩ := p
        rw [he] at h
        simp only [Option.map_some', Option.some.injEq, Prod.mk.injEq] at h
        obtain ⟨h1, h2⟩ := h
        subst h2
        have ih := execFrom_eq_some f cs n' a' he
        constructor
        · rw [← h1]
          simpa using ih.1
        · intro m hm
          cases m with
          | zero => simpa using hf
          | succ m =>
            have hm' : m < n' := by omega
            simpa using ih.2 m hm'

theorem jsExecAll_eq_nil (f : Str → Option α) (alen : α → Nat) (s : Str)
    (h : ∀ n, f (s.drop n) = none) : jsExecAll f alen s = [] := by
  have he : execFrom f s = none := (execFrom_eq_none_iff f s).mpr h
  unfold jsExecAll
  simp [jsExecAllGo, he]

/-! ## Decomposition of the artifact list by pass -/

/-- The document artifacts the document pass contributes. -/
def docArtList (s : Str) : List Artifact :=
  match docExec s with
  | some m => [mkDocArtifact m.2]
  | none => []

theorem codePassGo_fst : ∀ (ms : List (Nat × Str × Option Str × Str)) (st : List Artifact × Str),
    (codePassGo ms st).1 = st.1 ++ ms.map mkCodeArtifact
  | [], st => by simp [codePassGo]
  | m :: ms, st => by
    simp [codePassGo, codePassGo_fst ms]

theorem tablePassGo_fst : ∀ (ms : List (Nat × Str)) (st : List Artifact × Str),
    (tablePassGo ms st).1 =
      st.1 ++ (ms.filter (fun m => tableQualifies m.2)).map (fun m => mkTableArtifact m.2)
  | [], st => by simp [tablePassGo]
  | m :: ms, st => by
    cases hq : tableQualifies m.2 with
    | true => simp [tablePassGo, hq, tablePassGo_fst ms, List.filter_cons]
    | false => simp [tablePassGo, hq, tablePassGo_fst ms, List.filter_cons]

theorem tablePassGo_snd : ∀ (ms : List (Nat × Str)) (st : List Artifact × Str),
    ms.filter (fun m => tableQualifies m.2) = [] → (tablePassGo ms st).2 = st.2
  | [], st, _ => by simp [tablePassGo]
  | m :: ms, st, h => by
    cases hq : tableQualifies m.2 with
    | true => simp [List.filter_cons, hq] at h
    | false =>
      rw [List.filter_cons] at h
      simp only [hq, if_neg Bool.false_ne_true] at h
      simp [tablePassGo, hq, tablePassGo_snd ms st h]

theorem extract_artifacts_decomp (s : Str) :
    (extractArtifacts s).artifacts =
      (codeMatchList s).map mkCodeArtifact ++
      ((tableMatchList s).filter (fun m => tableQualifies m.2)).map (fun m => mkTableArtifact m.2) ++
      docArtList s := by
  have h0 : (extractArtifacts s).artifacts = (docPass s (tablePass s (codePass s))).1 := rfl
  have h1 : (codePass s).1 = (codeMatchList s).map mkCodeArtifact := by
    simpa using codePassGo_fst (codeMatchList s) ([], s)
  have h2 := tablePassGo_fst (tableMatchList s) (codePass s)
  rw [h0]
  unfold docPass docArtList
  cases hd : docExec s <;> simp [tablePass, h2, h1, List.append_assoc]

theorem anyP_code (l : List (Nat × Str × Option Str × Str)) (ty : ArtifactType)
    (h : ty ≠ ArtifactType.code) :
    (l.map mkCodeArtifact).any (fun a => decide (a.type = ty)) = false := by
  rw [List.any_eq_false]
  rintro a ha
  obtain ⟨m, -, rfl⟩ := List.mem_map.mp ha
  simp [mkCodeArtifact]
  exact fun e => h e.symm

theorem anyP_table (l : List (Nat × Str)) (ty : ArtifactType)
    (h : ty ≠ ArtifactType.table) :
    ((l.map (fun m => mkTableArtifact m.2)).any (fun a => decide (a.type = ty))) = false := by
  rw [List.any_eq_false]
  rintro a ha
  obtain ⟨m, -, rfl⟩ := List.mem_map.mp ha
  simp [mkTableArtifact]
  exact fun e => h e.symm

theorem anyTable_doc (s : Str) :
    (docArtList s).any (fun a => decide (a.type = ArtifactType.table)) = false := by
  unfold docArtList
  cases docExec s <;> simp [mkDocArtifact]

theorem anyTable_map (l : List (Nat × Str)) :
    ((l.map (fun m => mkTableArtifact m.2)).any (fun a => decide (a.type = ArtifactType.table))) =
      !l.isEmpty := by
  cases l <;> simp [mkTableArtifact]

theorem hasTableArtifact_iff (s : Str) :
    hasTableArtifact s = true ↔
      (tableMatchList s).filter (fun m => tableQualifies m.2) ≠ [] := by
  unfold hasTableArtifact
  rw [extract_artifacts_decomp, List.any_append, List.any_append,
    anyP_code _ _ (by decide), anyTable_doc, anyTable_map]
  simp [List.isEmpty_iff]

/-! ## Characterisation of the document pass -/

/-- No keyword of the set is, after lower-casing, a proper prefix of another:
two keywords that both match at the same position are equal. -/
theorem docKeywords_lower_not_proper :
    ∀ k1 ∈ docKeywords, ∀ k2 ∈ docKeywords, lowerStr k1 <+: lowerStr k2 → k1 = k2 := by
  decide

theorem ciStarts_unique {k1 k2 t : Str} (h1 : k1 ∈ docKeywords) (h2 : k2 ∈ docKeywords)
    (c1 : ciStarts k1 t = true) (c2 : ciStarts k2 t = true) : k1 = k2 := by
  unfold ciStarts at c1 c2
  have p1 : lowerStr k1 <+: lowerStr t := Iff.mp List.isPrefixOf_iff_prefix c1
  have p2 : lowerStr k2 <+: lowerStr t := Iff.mp List.isPrefixOf_iff_prefix c2
  rcases List.prefix_or_prefix_of_prefix p1 p2 with h | h
  · exact docKeywords_lower_not_proper k1 h1 k2 h2 h
  · exact (docKeywords_lower_not_proper k2 h2 k1 h1 h).symm

theorem matchDocSuffix_isSome_iff (t : Str) :
    (matchDocSuffix t).isSome ↔
      ∃ kw, kw ∈ docKeywords ∧ ciStarts kw t = true ∧ kw.length + 200 ≤ t.length := by
  cases hf : docKeywords.find? (fun kw => ciStarts kw t) with
  | none =>
    simp only [matchDocSuffix, hf, Option.isSome_none, Bool.false_eq_true, false_iff]
    rintro ⟨kw, hkw, hci, -⟩
    have := List.find?_eq_none.mp hf kw hkw
    simp [hci] at this
  | some kw =>
    have hp' := List.find?_some hf
    have hp : ciStarts kw t = true := hp'
    have hm : kw ∈ docKeywords := List.mem_of_find?_eq_some hf
    simp only [matchDocSuffix, hf]
    constructor
    · intro h
      refine ⟨kw, hm, hp, ?_⟩
      by_cases hlen : kw.length + 200 ≤ t.length
      · exact hlen
      · simp [hlen] at h
    · rintro ⟨kw2, hkw2, hci2, hlen2⟩
      have he : kw2 = kw := ciStarts_unique hkw2 hm hci2 hp
      subst he
      simp [hlen2]

theorem matchDocSuffix_eq_some {t w : Str} (h : matchDocSuffix t = some w) : w = t := by
  cases hf : docKeywords.find? (fun kw => ciStarts kw t) with
  | none => simp [matchDocSuffix, hf] at h
  | some kw =>
    by_cases hl : kw.length + 200 ≤ t.length
    · have he : matchDocSuffix t = some t := by simp [matchDocSuffix, hf, hl]
      rw [he] at h
      exact (Option.some.inj h).symm
    · have he : matchDocSuffix t = none := by simp [matchDocSuffix, hf, hl]
      rw [he] at h
      simp at h

theorem docTriggerAt_iff (s : Str) (m : Nat) :
    DocTriggerAt s m ↔ (matchDocSuffix (s.drop m)).isSome := by
  rw [matchDocSuffix_isSome_iff]
  unfold DocTriggerAt
  constructor
  · rintro ⟨kw, hkw, hci, hlen⟩
    exact ⟨kw, hkw, hci, by rw [List.length_drop]; omega⟩
  · rintro ⟨kw, hkw, hci, hlen⟩
    rw [List.length_drop] at hlen
    exact ⟨kw, hkw, hci, by omega⟩

theorem docExec_isSome_iff (s : Str) : (docExec s).isSome ↔ DocTrigger s := by
  unfold docExec DocTrigger
  constructor
  · intro h
    obtain ⟨⟨n, a⟩, he⟩ := Option.isSome_iff_exists.mp h
    have h1 := (execFrom_eq_some _ _ _ _ he).1
    exact ⟨n, (docTriggerAt_iff s n).mpr (by simp [h1])⟩
  · rintro ⟨m, hm⟩
    have hs : (matchDocSuffix (s.drop m)).isSome := (docTriggerAt_iff s m).mp hm
    by_contra hnone
    rw [Option.not_isSome_iff_eq_none] at hnone
    have := (execFrom_eq_none_iff matchDocSuffix s).mp hnone m
    rw [this] at hs
    simp at hs

theorem anyDoc_doc (s : Str) :
    (docArtList s).any (fun a => decide (a.type = ArtifactType.document)) = (docExec s).isSome := by
  unfold docArtList
  cases docExec s <;> simp [mkDocArtifact]

theorem hasDocumentArtifact_iff (s : Str) :
    hasDocumentArtifact s = true ↔ (docExec s).isSome := by
  unfold hasDocumentArtifact
  rw [extract_artifacts_decomp, List.any_append, List.any_append,
    anyP_code _ _ (by decide), anyP_table _ _ (by decide), anyDoc_doc]
  simp

theorem doc_count_le_one (s : Str) :
    (extractArtifacts s).artifacts.countP (fun a => decide (a.type = ArtifactType.document)) ≤ 1 := by
  rw [extract_artifacts_decomp, List.countP_append, List.countP_append]
  have h1 : ((codeMatchList s).map mkCodeArtifact).countP
      (fun a => decide (a.type = ArtifactType.document)) = 0 := by
    rw [List.countP_eq_zero]
    rintro a ha
    obtain ⟨m, -, rfl⟩ := List.mem_map.mp ha
    simp [mkCodeArtifact]
  have h2 : (((tableMatchList s).filter (fun m => tableQualifies m.2)).map
      (fun m => mkTableArtifact m.2)).countP (fun a => decide (a.type = ArtifactType.document)) = 0 := by
    rw [List.countP_eq_zero]
    rintro a ha
    obtain ⟨m, -, rfl⟩ := List.mem_map.mp ha
    simp [mkTableArtifact]
  have h3 : (docArtList s).countP (fun a => decide (a.type = ArtifactType.document)) ≤ 1 := by
    unfold docArtList
    cases docExec s <;> simp [List.countP_cons, mkDocArtifact]
  omega

/-! ## Lemmas for the document threshold (claim C8) -/

theorem ciStarts_append_self (kw t : Str) : ciStarts kw (kw ++ t) = true := by
  unfold ciStarts lowerStr
  rw [List.map_append]
  exact Iff.mpr List.isPrefixOf_iff_prefix (List.prefix_append _ _)

theorem ciStarts_append_left {p u v : Str} (h : ciStarts p (u ++ v) = true)
    (hlen : p.length ≤ u.length) : ciStarts p u = true := by
  unfold ciStarts lowerStr at h ⊢
  rw [List.map_append] at h
  have hpre := Iff.mp List.isPrefixOf_iff_prefix h
  have heq := List.prefix_iff_eq_take.mp hpre
  rw [List.length_map, List.take_append_eq_append_take] at heq
  have h0 : p.length - (u.map Char.toLower).length = 0 := by
    rw [List.length_map]; omega
  rw [h0, List.take_zero, List.append_nil] at heq
  refine Iff.mpr List.isPrefixOf_iff_prefix (List.prefix_iff_eq_take.mpr ?_)
  rw [List.length_map]
  exact heq

/-- Every keyword has length at most 9. -/
theorem docKeywords_length : ∀ kw ∈ docKeywords, kw.length ≤ 9 := by decide

/-- No keyword matches case-insensitively strictly inside another keyword. -/
theorem docKeywords_no_inner :
    ∀ kw ∈ docKeywords, ∀ kw2 ∈ docKeywords, ∀ n, n < 10 →
      n + kw2.length < kw.length → ciStarts kw2 (kw.drop n) = false := by
  decide

theorem not_docTrigger_of_short {kw t : Str} (hkw : kw ∈ docKeywords)
    (ht : t.length = 199) : ¬ DocTrigger (kw ++ t) := by
  rintro ⟨m, kw2, hkw2, hci, hlen⟩
  rw [List.length_append, ht] at hlen
  have hm : m + kw2.length < kw.length := by omega
  have hmk : m < kw.length := by omega
  rw [List.drop_append_eq_append_drop] at hci
  have h0 : m - kw.length = 0 := by omega
  rw [h0, List.drop_zero] at hci
  have hlen2 : kw2.length ≤ (kw.drop m).length := by
    rw [List.length_drop]; omega
  have hin : ciStarts kw2 (kw.drop m) = true := ciStarts_append_left hci hlen2
  have hk9 : kw.length ≤ 9 := docKeywords_length kw hkw
  have := docKeywords_no_inner kw hkw kw2 hkw2 m (by omega) hm
  rw [this] at hin
  exact Bool.false_ne_true hin

theorem docTrigger_of_long {kw t : Str} (hkw : kw ∈ docKeywords)
    (ht : 200 ≤ t.length) : DocTrigger (kw ++ t) := by
  refine ⟨0, kw, hkw, ?_, ?_⟩
  · simpa using ciStarts_append_self kw t
  · rw [List.length_append]; omega

/-! ## Remaining claim theorems -/

/-- C4, amended.  The document pass produces a document artifact exactly when
a case-insensitive occurrence of one of the SIX keywords CONTRACT, AGREEMENT,
MEMO, POLICY, PROCEDURE, DOCUMENT in the ORIGINAL text is followed by at
least 200 more characters up to the end of that text; it produces at most one
document artifact per call; and the single `exec` takes the first such
occurrence (its match runs from there to the end of the text, and no position
to its left carries a trigger). -/
theorem c4_amended (s : Str) :
    (hasDocumentArtifact s = true ↔ DocTrigger s) ∧
    (extractArtifacts s).artifacts.countP (fun a => decide (a.type = ArtifactType.document)) ≤ 1 ∧
    (∀ n w, docExec s = some (n, w) → w = s.drop n ∧ ∀ m, m < n → ¬ DocTriggerAt s m) := by
  refine ⟨(hasDocumentArtifact_iff s).trans (docExec_isSome_iff s), doc_count_le_one s, ?_⟩
  intro n w h
  obtain ⟨h1, h2⟩ := execFrom_eq_some _ _ _ _ h
  refine ⟨matchDocSuffix_eq_some h1, ?_⟩
  intro m hm
  rw [docTriggerAt_iff, h2 m hm]
  simp

/-- Witness for C4: a concrete input with a MEMO trigger has a document
artifact. -/
theorem c4_amended_witness :
    hasDocumentArtifact (S "MEMO" ++ List.replicate 200 'b') = true :=
  (c4_amended (S "MEMO" ++ List.replicate 200 'b')).1.mpr
    ⟨0, S "MEMO", by decide, by decide, by decide⟩

/-- C8, confirmed.  For every keyword of the document-pass keyword set, a
text of the keyword followed by exactly 199 characters (any characters) is
never extracted as a document artifact, while the keyword followed by 200
characters always is.  (The document pass scans the original text, so this is
independent of the other passes.) -/
theorem c8_confirmed (kw t u : Str) (hkw : kw ∈ docKeywords)
    (ht : t.length = 199) (hu : u.length = 200) :
    hasDocumentArtifact (kw ++ t) = false ∧ hasDocumentArtifact (kw ++ u) = true := by
  constructor
  · rw [Bool.eq_false_iff]
    intro htrue
    exact not_docTrigger_of_short hkw ht
      ((docExec_isSome_iff _).mp ((hasDocumentArtifact_iff _).mp htrue))
  · exact (hasDocumentArtifact_iff _).mpr
      ((docExec_isSome_iff _).mpr (docTrigger_of_long hkw (by omega)))

/-- Witness for C8 at the keyword CONTRACT with runs of 199 and 200 `'a'`. -/
theorem c8_confirmed_witness :
    S "CONTRACT" ∈ docKeywords ∧
    (List.replicate 199 'a').length = 199 ∧
    (List.replicate 200 'a').length = 200 ∧
    hasDocumentArtifact (S "CONTRACT" ++ List.replicate 199 'a') = false ∧
    hasDocumentArtifact (S "CONTRACT" ++ List.replicate 200 'a') = true := by
  refine ⟨by decide, by simp, by simp, ?_, ?_⟩
  · exact (c8_confirmed (S "CONTRACT") (List.replicate 199 'a') (List.replicate 200 'a')
      (by decide) (by simp) (by simp)).1
  · exact (c8_confirmed (S "CONTRACT") (List.replicate 199 'a') (List.replicate 200 'a')
      (by decide) (by simp) (by simp)).2

/-! ## An extraction that yields no artifacts leaves the text to cleanup only -/

theorem extract_of_no_artifacts (r : Str) (h : (extractArtifacts r).artifacts = []) :
    extractArtifacts r = { artifacts := [], conversationalContent := cleanupContent r } := by
  have hd := (extract_artifacts_decomp r).symm.trans h
  rw [List.append_eq_nil, List.append_eq_nil] at hd
  obtain ⟨⟨hA, hB⟩, hC⟩ := hd
  have hcml : codeMatchList r = [] := List.map_eq_nil_iff.mp hA
  have hfil : (tableMatchList r).filter (fun m => tableQualifies m.2) = [] :=
    List.map_eq_nil_iff.mp hB
  have hdoc : docExec r = none := by
    unfold docArtList at hC
    cases hde : docExec r with
    | none => rfl
    | some m => rw [hde] at hC; simp at hC
  have hcp : codePass r = ([], r) := by
    unfold codePass
    rw [hcml]
    rfl
  have htp : tablePass r ([], r) = ([], r) := by
    have f1 := tablePassGo_fst (tableMatchList r) ([], r)
    rw [hfil] at f1
    simp only [List.map_nil, List.append_nil] at f1
    have f2 := tablePassGo_snd (tableMatchList r) ([], r) hfil
    unfold tablePass
    exact Prod.ext f1 f2
  have hdp : docPass r ([], r) = ([], r) := by
    unfold docPass
    rw [hdoc]
  show extractArtifacts r = _
  unfold extractArtifacts
  rw [hcp]
  simp [htp, hdp]

/-- C7, amended.  The extractor is a pure, deterministic function of its text
argument (two calls yield identical outputs), and whenever re-extracting the
remainder yields no artifacts, the second call returns the remainder merely
re-normalised by the cleanup chain — the remainder need NOT be a fixed point,
because the placeholder-line removal runs after the newline collapse and can
itself create a fresh run of three newlines. -/
theorem c7_amended (s : Str) :
    extractArtifacts s = extractArtifacts s ∧
    ((extractArtifacts ((extractArtifacts s).conversationalContent)).artifacts = [] →
      extractArtifacts ((extractArtifacts s).conversationalContent) =
        { artifacts := []
          conversationalContent := cleanupContent ((extractArtifacts s).conversationalContent) }) :=
  ⟨rfl, fun h => extract_of_no_artifacts _ h⟩

/-- Witness for C7 at the trigger-free input `"hi"`. -/
theorem c7_amended_witness :
    (extractArtifacts ((extractArtifacts (S "hi")).conversationalContent)).artifacts = [] ∧
    extractArtifacts ((extractArtifacts (S "hi")).conversationalContent) =
      { artifacts := []
        conversationalContent := cleanupContent ((extractArtifacts (S "hi")).conversationalContent) } :=
  ⟨by decide, (c7_amended (S "hi")).2 (by decide)⟩

/-! ## Tables need a newline (claim C9) -/

theorem lineSplit_eq_none : ∀ {t : Str}, '\n' ∉ t → lineSplit t = none
  | [], _ => rfl
  | c :: cs, h => by
    have hc : ¬(c = '\n') := fun e => h (by simp [e])
    have ih := lineSplit_eq_none (t := cs) (fun hm => h (List.mem_cons_of_mem c hm))
    simp [lineSplit, hc, ih]

theorem matchTableUnit_eq_none {t : Str} (h : '\n' ∉ t) : matchTableUnit t = none := by
  cases t with
  | nil => rfl
  | cons c cs =>
    have hcs : '\n' ∉ cs := fun hm => h (List.mem_cons_of_mem c hm)
    by_cases hc : c = '|'
    · simp [matchTableUnit, hc, lineSplit_eq_none hcs]
    · simp [matchTableUnit, hc]

/-- C9, amended.  A single line (a text without a newline) is never extracted
as a table artifact — every matched table line must be newline-terminated —
and a run of two or more newline-terminated lines, each consisting of cells
between pipes, is extracted as one table artifact; for the two-line run
`"|a|\n|b|\n"` the artifact content is the trimmed run and the remainder
falls back to the canned table sentence. -/
theorem c9_amended :
    (∀ s : Str, '\n' ∉ s → hasTableArtifact s = false) ∧
    extractArtifacts c9Table =
      { artifacts := [{ type := ArtifactType.table, content := S "|a|\n|b|",
                        title := S "Data Table" }],
        conversationalContent := cannedTable } := by
  constructor
  · intro s hs
    have hmatch : ∀ n, matchTableSuffix (s.drop n) = none := by
      intro n
      have hnd : '\n' ∉ s.drop n := fun hm => hs (List.drop_subset n s hm)
      unfold matchTableSuffix
      rw [matchTableUnit_eq_none hnd]
    have htl : tableMatchList s = [] := jsExecAll_eq_nil _ _ _ hmatch
    have hfil : (tableMatchList s).filter (fun m => tableQualifies m.2) = [] := by
      rw [htl]; rfl
    rw [Bool.eq_false_iff]
    intro htrue
    exact (hasTableArtifact_iff s).mp htrue hfil
  · decide

/-- Witness for C9 at the newline-free input `"abc"`. -/
theorem c9_amended_witness :
    '\n' ∉ S "abc" ∧ hasTableArtifact (S "abc") = false :=
  ⟨by decide, c9_amended.1 (S "abc") (by decide)⟩

/-- C3, amended.  The source formatter equals the amended description: among
the trimmed non-blank lines, the first is the header, the SECOND is treated
as a separator and discarded, the lines from the third on are the body rows;
the content is returned unchanged unless there are at least two such lines,
a pipe in the header and a dash in the separator; and ALL cells that are
empty after trimming are dropped, interior ones included. -/
theorem c3_amended (content : Str) :
    parseMarkdownTable content = parseMarkdownTableAmended content := by
  have hrc : (fun row => ((splitOnChar '|' row).map jsTrim).filter (fun cell => !cell.isEmpty)) =
      rowCells := rfl
  simp only [parseMarkdownTable, parseMarkdownTableAmended]
  cases hrows : (splitOnChar '\n' (jsTrim content)).filter (fun row => !(jsTrim row).isEmpty) with
  | nil => simp
  | cons a rest =>
    cases rest with
    | nil => simp
    | cons b dataRows =>
      simp only [List.length_cons, List.getD_cons_zero, List.getD_cons_succ,
        List.drop_succ_cons, List.drop_zero]
      rw [if_neg (by omega)]
      cases h1 : a.contains '|' <;> cases h2 : b.contains '-' <;>
        simp [h1, h2, ← hrc]

/-- Witness for C3 at a concrete three-line table. -/
theorem c3_amended_witness :
    parseMarkdownTable (S "|h|\n|-|\n|x|") = parseMarkdownTableAmended (S "|h|\n|-|\n|x|") :=
  c3_amended (S "|h|\n|-|\n|x|")

/-- Witness for C5 at a concrete error event on the empty message list. -/
theorem c5_amended_witness :
    handleErrorEvent [] (S "oops") 7 (S "t") =
      [] ++ [{ id := 7, content := S "Error: " ++ S "oops", isBot := true,
               agent := S "System", timestamp := S "t", isError := true }] ∧
    (handleErrorEvent [] (S "oops") 7 (S "t")).take ([] : List Message).length = [] ∧
    (handleErrorEvent [] (S "oops") 7 (S "t")).length = ([] : List Message).length + 1 :=
  c5_amended [] (S "oops") 7 (S "t")
